import Mathlib

/-!
Shallow embedding of the LineEditor dispatch engine (src/engine.rs).

The engine's collaborators (StyledBuffer, Editor commands, list view, pairs
table) live outside src/; they are modelled from the spec (sections 3, 4 and 6)
and each such definition carries a doc comment starting with
"Modelled from the spec:".  Strings are modelled as lists of characters and
the u16 selection offsets as Nat: no claim involves values anywhere near 2^16,
so wrap-around of the machine integers is irrelevant to the statements below.
-/

/-- Visual style attached to a single character.  The source's `Style` carries
terminal colours and attributes; the engine only stores and compares them, so
they are modelled as numeric codes. -/
structure Style where
  bg : Option Nat := none
  fg : Option Nat := none
deriving DecidableEq, Repr

/-- Modelled from the spec: the StyledBuffer (section 3, section 6 buffer
collaborator) is an ordered sequence of characters with per-character style
and a single cursor position. -/
structure StyledBuffer where
  buffer : List Char
  position : Nat
  styles : List (Option Style)
deriving DecidableEq, Repr

/-- Length of the buffer (the `len()` operation). -/
def StyledBuffer.len (b : StyledBuffer) : Nat := b.buffer.length

/-- Modelled from the spec: `set_position(n)` moves the cursor. -/
def StyledBuffer.set_position (b : StyledBuffer) (n : Nat) : StyledBuffer :=
  { b with position := n }

/-- Modelled from the spec: `insert_char(c)` inserts at the cursor and leaves
the cursor after the inserted character (section 4.2's surround example pins
this semantics). -/
def StyledBuffer.insert_char (b : StyledBuffer) (c : Char) : StyledBuffer :=
  { buffer := b.buffer.take b.position ++ c :: b.buffer.drop b.position
    position := b.position + 1
    styles := b.styles.take b.position ++ none :: b.styles.drop b.position }

/-- Modelled from the spec: `insert_string(s)` inserts at the cursor and leaves
the cursor after the inserted text. -/
def StyledBuffer.insert_string (b : StyledBuffer) (s : List Char) : StyledBuffer :=
  { buffer := b.buffer.take b.position ++ s ++ b.buffer.drop b.position
    position := b.position + s.length
    styles := b.styles.take b.position ++ List.replicate s.length none ++ b.styles.drop b.position }

/-- Modelled from the spec: `delete_range(from,to)` removes the half-open char
range and repositions the cursor to `from` (section 4.2: cut — which performs
its deletion solely through this operation — "repositions the cursor to
`from`"). -/
def StyledBuffer.delete_range (b : StyledBuffer) (lo hi : Nat) : StyledBuffer :=
  { buffer := b.buffer.take lo ++ b.buffer.drop hi
    position := lo
    styles := b.styles.take lo ++ b.styles.drop hi }

/-- Modelled from the spec: `delete_left_char()` removes the character before
the cursor (no-op at offset 0) and moves the cursor left. -/
def StyledBuffer.delete_left_char (b : StyledBuffer) : StyledBuffer :=
  if b.position = 0 then b
  else
    { buffer := b.buffer.take (b.position - 1) ++ b.buffer.drop b.position
      position := b.position - 1
      styles := b.styles.take (b.position - 1) ++ b.styles.drop b.position }

/-- Modelled from the spec: `delete_right_char()` removes the character at the
cursor (no-op at end of buffer); the cursor does not move. -/
def StyledBuffer.delete_right_char (b : StyledBuffer) : StyledBuffer :=
  if b.position < b.buffer.length then
    { buffer := b.buffer.take b.position ++ b.buffer.drop (b.position + 1)
      position := b.position
      styles := b.styles.take b.position ++ b.styles.drop (b.position + 1) }
  else b

/-- Modelled from the spec: `sub_string(from,to) -> Option<text>` is the
fallible substring operation; it yields the characters of [lo,hi) when the
range lies inside the buffer and None otherwise. -/
def StyledBuffer.sub_string (b : StyledBuffer) (lo hi : Nat) : Option (List Char) :=
  if lo ≤ hi ∧ hi ≤ b.buffer.length then some ((b.buffer.drop lo).take (hi - lo)) else none

/-- Modelled from the spec: `clear()` empties the buffer. -/
def StyledBuffer.clear (_b : StyledBuffer) : StyledBuffer :=
  { buffer := [], position := 0, styles := [] }

/-- Modelled from the spec: `reset_styles()` resets every per-character style. -/
def StyledBuffer.reset_styles (b : StyledBuffer) : StyledBuffer :=
  { b with styles := List.replicate b.buffer.length none }

/-- Helper for `style_range`: restyle the indices of [lo,hi), counting from
index `k` for the head of the list. -/
def styleRangeFrom (lo hi : Nat) (st : Style) : Nat → List (Option Style) → List (Option Style)
  | _, [] => []
  | k, x :: xs => (if lo ≤ k ∧ k < hi then some st else x) :: styleRangeFrom lo hi st (k + 1) xs

/-- Modelled from the spec: `style_range(from,to,style)` attaches `style` to
every character of the half-open range. -/
def StyledBuffer.style_range (b : StyledBuffer) (lo hi : Nat) (st : Style) : StyledBuffer :=
  { b with styles := styleRangeFrom lo hi st 0 b.styles }

/-- The edit commands dispatched by the engine (src/event.rs is outside src/;
the constructors are exactly the ones engine.rs dispatches). -/
inductive EditCommand where
  | InsertChar (c : Char)
  | InsertString (s : List Char)
  | DeleteSpan (lo hi : Nat)
  | DeleteLeftChar
  | DeleteRightChar
deriving DecidableEq, Repr

/-- The movement commands dispatched by the engine. -/
inductive MovementCommand where
  | MoveLeftChar
  | MoveRightChar
  | MoveToStart
  | MoveToEnd
deriving DecidableEq, Repr

/-- Modelled from the spec: `Editor::run_edit_commands` applies one edit
command to the styled buffer through the section 6 buffer operations. -/
def run_edit_commands (b : StyledBuffer) : EditCommand → StyledBuffer
  | .InsertChar c => b.insert_char c
  | .InsertString s => b.insert_string s
  | .DeleteSpan lo hi => b.delete_range lo hi
  | .DeleteLeftChar => b.delete_left_char
  | .DeleteRightChar => b.delete_right_char

/-- Modelled from the spec: `Editor::run_movement_commands` moves the cursor,
clamped to [0, length]. -/
def run_movement_commands (b : StyledBuffer) : MovementCommand → StyledBuffer
  | .MoveLeftChar => { b with position := b.position - 1 }
  | .MoveRightChar => if b.position < b.buffer.length then { b with position := b.position + 1 } else b
  | .MoveToStart => { b with position := 0 }
  | .MoveToEnd => { b with position := b.buffer.length }

/-- A completion suggestion: literal text plus the source span it replaces. -/
structure Suggestion where
  literal : List Char
  span_start : Nat
  span_end : Nat
deriving DecidableEq, Repr

/-- Modelled from the spec: the list-view state of the autocomplete overlay —
a visibility flag, the suggestion list and a focus index.  The painting
operations (`clear`, `render`) are pure rendering effects with no model
state. -/
structure ListViewState where
  visible : Bool
  elements : List Suggestion
  focus : Nat
deriving DecidableEq, Repr

/-- The focused suggestion, if the focus index is in range. -/
def ListViewState.selected_element (v : ListViewState) : Option Suggestion :=
  v.elements[v.focus]?

/-- Modelled from the spec: focus moves by one with "wraparound or clamping"
(section 4.3); clamping at the ends is chosen. -/
def ListViewState.focus_previous (v : ListViewState) : ListViewState :=
  { v with focus := v.focus - 1 }

/-- Modelled from the spec: move the focus down by one, clamped. -/
def ListViewState.focus_next (v : ListViewState) : ListViewState :=
  { v with focus := min (v.focus + 1) (v.elements.length - 1) }

/-- Modelled from the spec: a highlighter restyles the whole buffer — it maps
the buffer contents and the current styles to new styles (section 6
`{highlight(buffer)}` capability; section 2: highlighters "restyle whole
buffer"). -/
abbrev Highlighter := List Char → List (Option Style) → List (Option Style)

/-- Modelled from the spec: a hinter optionally produces a hint text from the
buffer (`{hint(buffer) -> Option<text>}`). -/
abbrev Hinter := StyledBuffer → Option (List Char)

/-- Modelled from the spec: the auto-pair policy may mutate the buffer
(`{complete_pair(buffer)}`). -/
abbrev AutoPair := StyledBuffer → StyledBuffer

/-- Modelled from the spec: DEFAULT_PAIRS is defined outside src/; the spec's
surround-selection example pins the pair ('(', ')'), and bracket pairs follow
the same pattern.  Only the parenthesis pair is relied on by any claim. -/
def DEFAULT_PAIRS : List (Char × Char) := [('(', ')'), ('[', ']')]

/-- Result returned from `read_line`. -/
inductive LineEditorResult where
  | Success (content : List Char)
  | Interrupted
  | EndTerminalSession
deriving DecidableEq, Repr

/-- Internal status returned after applying one event. -/
inductive EventStatus where
  | GeneralHandled
  | EditHandled
  | MovementHandled
  | SelectionHandled
  | AutoCompleteHandled
  | Inapplicable
  | Exits (result : LineEditorResult)
deriving DecidableEq, Repr

/-- The semantic events dispatched by `handle_editor_event`.
`ToggleAutoComplete` is omitted: its behaviour depends on the completer and on
live terminal geometry and no claim quantifies over it. -/
inductive LineEditorEvent where
  | Edit (commands : List EditCommand)
  | Movement (commands : List MovementCommand)
  | Enter
  | Up
  | Down
  | Left
  | Right
  | Delete
  | Backspace
  | SelectLeft
  | SelectRight
  | SelectAll
  | CutSelected
  | CopySelected
  | Paste
deriving DecidableEq, Repr

/-- The engine state of `LineEditor` together with its clipboard environment.
`selected_start`/`selected_end` are the u16 selection offsets, modelled as
Nat.  The clipboard is an external resource: `clip_new_ok` models whether
`ClipboardProvider::new()` succeeds (the engine calls `.unwrap()` on it),
`clip_set_ok` whether `set_contents` succeeds, `clip_get_ok` whether
`get_contents` succeeds, and `clipboard` the system clipboard text. -/
structure LineEditor where
  editor : StyledBuffer
  selected_start : Nat
  selected_end : Nat
  enable_surround_selection : Bool
  selection_style : Option Style
  highlighters : List Highlighter
  hinters : List Hinter
  auto_pair : Option AutoPair
  auto_complete_view : ListViewState
  clip_new_ok : Bool
  clip_set_ok : Bool
  clip_get_ok : Bool
  clipboard : List Char

/-- Reset selection start and end to the current cursor position
(engine.rs lines 597-601). -/
def reset_selection_range (s : LineEditor) : LineEditor :=
  { s with selected_start := s.editor.position, selected_end := s.editor.position }

/-- Apply surround selection (engine.rs lines 570-580): insert the open char
before the normalized start, the close char after the normalized end, and park
the cursor at the start.  The selection fields are not touched. -/
def apply_surround_selection (s : LineEditor) (k v : Char) : LineEditor :=
  let lo := min s.selected_start s.selected_end
  let hi := max s.selected_start s.selected_end
  let e1 := (s.editor.set_position lo).insert_char k
  let e2 := (e1.set_position (hi + 1)).insert_char v
  { s with editor := e2.set_position lo }

/-- Delete the current selected text (engine.rs lines 583-594): delete the
normalized span, reposition to its start, reset the selection. -/
def delete_selected_text (s : LineEditor) : LineEditor :=
  if s.selected_start = s.selected_end then s
  else
    let lo := min s.selected_start s.selected_end
    let hi := max s.selected_start s.selected_end
    let e1 := run_edit_commands s.editor (.DeleteSpan lo hi)
    reset_selection_range { s with editor := e1.set_position lo }

/-- The command loop of the `Edit` arm (engine.rs lines 349-364): each command
first checks the surround condition; a hit applies the surround and returns
early (flag `true`), otherwise the command runs and the loop continues. -/
def runEditLoop : LineEditor → List EditCommand → LineEditor × Bool
  | s, [] => (s, false)
  | s, c :: rest =>
    let hit : Option (Char × Char) :=
      if s.enable_surround_selection ∧ s.selected_start ≠ s.selected_end then
        match c with
        | .InsertChar ch => DEFAULT_PAIRS.find? (fun p => p.1 == ch)
        | _ => none
      else none
    match hit with
    | some p => (apply_surround_selection s p.1 p.2, true)
    | none => runEditLoop { s with editor := run_edit_commands s.editor c } rest

/-- The command loop of the `Movement` arm (engine.rs lines 366-369). -/
def runMovementLoop (s : LineEditor) (cmds : List MovementCommand) : LineEditor :=
  { s with editor := cmds.foldl run_movement_commands s.editor }

/-- Apply one `LineEditorEvent` (engine.rs lines 347-551).  The result is
`none` when the code panics (the `.unwrap()` on `ClipboardProvider::new()`),
otherwise the status together with the successor state. -/
def handle_editor_event (s : LineEditor) (event : LineEditorEvent) :
    Option (EventStatus × LineEditor) :=
  match event with
  | .Edit commands =>
    match runEditLoop s commands with
    | (s', true) => some (.EditHandled, s')
    | (s', false) => some (.EditHandled, reset_selection_range s')
  | .Movement commands =>
    some (.MovementHandled, reset_selection_range (runMovementLoop s commands))
  | .Enter =>
    match (if s.auto_complete_view.visible then s.auto_complete_view.selected_element else none) with
    | some suggestion =>
      let e1 := run_edit_commands s.editor (.DeleteSpan suggestion.span_start suggestion.span_end)
      let e2 := run_edit_commands e1 (.InsertString suggestion.literal)
      some (.SelectionHandled,
        { s with editor := e2,
                 auto_complete_view := { s.auto_complete_view with visible := false } })
    | none =>
      let content := s.editor.buffer
      let s1 := reset_selection_range s
      some (.Exits (.Success content), { s1 with editor := s1.editor.clear })
  | .Up =>
    if s.auto_complete_view.visible then
      some (.AutoCompleteHandled, { s with auto_complete_view := s.auto_complete_view.focus_previous })
    else some (.Inapplicable, s)
  | .Down =>
    if s.auto_complete_view.visible then
      some (.AutoCompleteHandled, { s with auto_complete_view := s.auto_complete_view.focus_next })
    else some (.Inapplicable, s)
  | .Left =>
    some (.MovementHandled,
      reset_selection_range { s with editor := run_movement_commands s.editor .MoveLeftChar })
  | .Right =>
    some (.MovementHandled,
      reset_selection_range { s with editor := run_movement_commands s.editor .MoveRightChar })
  | .Delete =>
    if s.selected_start ≠ s.selected_end then some (.EditHandled, delete_selected_text s)
    else some (.EditHandled, { s with editor := run_edit_commands s.editor .DeleteRightChar })
  | .Backspace =>
    if s.selected_start ≠ s.selected_end then some (.EditHandled, delete_selected_text s)
    else some (.EditHandled, { s with editor := run_edit_commands s.editor .DeleteLeftChar })
  | .SelectLeft =>
    if s.selected_end < 1 then some (.Inapplicable, s)
    else some (.SelectionHandled, { s with selected_end := s.selected_end - 1 })
  | .SelectRight =>
    if s.selected_end > s.editor.buffer.length then some (.Inapplicable, s)
    else some (.SelectionHandled, { s with selected_end := s.selected_end + 1 })
  | .SelectAll =>
    some (.SelectionHandled, { s with selected_start := 0, selected_end := s.editor.buffer.length })
  | .CutSelected =>
    if s.selected_start ≠ s.selected_end then
      let lo := min s.selected_start s.selected_end
      let hi := max s.selected_start s.selected_end
      match s.editor.sub_string lo hi with
      | some t =>
        if s.clip_new_ok then
          let s1 := { s with clipboard := if s.clip_set_ok then t else s.clipboard }
          let s2 := { s1 with editor := s1.editor.delete_range lo hi }
          some (.GeneralHandled, reset_selection_range s2)
        else none
      | none => some (.Inapplicable, s)
    else some (.Inapplicable, s)
  | .CopySelected =>
    if s.selected_start ≠ s.selected_end then
      let lo := min s.selected_start s.selected_end
      let hi := max s.selected_start s.selected_end
      match s.editor.sub_string lo hi with
      | some t =>
        if s.clip_new_ok then
          some (.GeneralHandled, { s with clipboard := if s.clip_set_ok then t else s.clipboard })
        else none
      | none => some (.Inapplicable, s)
    else some (.Inapplicable, s)
  | .Paste =>
    if s.clip_new_ok then
      if s.clip_get_ok then
        let content := s.clipboard
        let s1 := if s.selected_start ≠ s.selected_end then delete_selected_text s else s
        some (.GeneralHandled, { s1 with editor := run_edit_commands s1.editor (.InsertString content) })
      else some (.Inapplicable, s)
    else none

/-- Apply all registered highlighters in registration order
(engine.rs lines 322-325). -/
def applyHighlighters (hs : List Highlighter) (b : StyledBuffer) : StyledBuffer :=
  hs.foldl (fun acc h => { acc with styles := h acc.buffer acc.styles }) b

/-- Apply the visual selection overlay (engine.rs lines 554-567): when the
selection is non-empty and a selection style is configured, style the
normalized range. -/
def apply_visual_selection (s : LineEditor) : LineEditor :=
  if s.selected_start = s.selected_end then s
  else
    match s.selection_style with
    | some st =>
      let lo := min s.selected_start s.selected_end
      let hi := max s.selected_start s.selected_end
      { s with editor := s.editor.style_range lo hi st }
    | none => s

/-- The first non-empty hint in registration order (engine.rs lines 336-341). -/
def firstHint (hs : List Hinter) (b : StyledBuffer) : Option (List Char) :=
  hs.findSome? (fun h => h b)

/-- The render phase of one loop iteration (engine.rs lines 319-342): reset
all styles, run the highlighters in order, apply the selection overlay, then
query hinters only when the cursor sits at the end of the buffer. -/
def runRenderPhase (s : LineEditor) : LineEditor × Option (List Char) :=
  let s1 := { s with editor := applyHighlighters s.highlighters s.editor.reset_styles }
  let s2 := apply_visual_selection s1
  let hint :=
    if s2.editor.position = s2.editor.buffer.length then firstHint s2.hinters s2.editor else none
  (s2, hint)

/-- Outcome of applying the queued events of one iteration
(engine.rs lines 298-309). -/
inductive EventsOutcome where
  | panicked
  | aborted (s : LineEditor)
  | exited (r : LineEditorResult) (s : LineEditor)
  | finished (s : LineEditor)

/-- Apply the queued events in order; `AutoCompleteHandled` and `Inapplicable`
abort the iteration (continue 'main, skipping the render), `Exits` leaves the
loop, and every other status continues with the next event. -/
def applyEvents : LineEditor → List LineEditorEvent → EventsOutcome
  | s, [] => .finished s
  | s, e :: rest =>
    match handle_editor_event s e with
    | none => .panicked
    | some (.AutoCompleteHandled, s') => .aborted s'
    | some (.Inapplicable, s') => .aborted s'
    | some (.Exits r, s') => .exited r s'
    | some (_, s') => applyEvents s' rest

/-- Result of one full iteration of the main loop. -/
inductive IterResult where
  | panicked
  | skipped (s : LineEditor)
  | exited (r : LineEditorResult) (s : LineEditor)
  | rendered (s : LineEditor) (hint : Option (List Char))

/-- The auto-pair step of one iteration (engine.rs lines 311-317): when the
buffer grew relative to the start of the iteration (`s0`), run the auto-pair
policy on the current state (`s1`). -/
def autoPairStep (s0 s1 : LineEditor) : LineEditor :=
  if s0.editor.buffer.length < s1.editor.buffer.length then
    match s1.auto_pair with
    | some ap => { s1 with editor := ap s1.editor }
    | none => s1
  else s1

/-- One iteration of the main loop (engine.rs lines 294-342): record the
buffer length, apply the queued events, run the auto-pair policy when the
buffer grew, then run the render phase. -/
def runIteration (s : LineEditor) (events : List LineEditorEvent) : IterResult :=
  match applyEvents s events with
  | .panicked => .panicked
  | .aborted s' => .skipped s'
  | .exited r s' => .exited r s'
  | .finished s' =>
    match runRenderPhase (autoPairStep s s') with
    | (s3, hint) => .rendered s3 hint

/-! Helper definitions shared by the theorems below. -/

/-- One dispatch step viewed as a state transformer (the successor state of
`handle_editor_event`; a panic leaves the state in place). -/
def stepState (s : LineEditor) (e : LineEditorEvent) : LineEditor :=
  match handle_editor_event s e with
  | some p => p.2
  | none => s

/-- The selection-extension and movement events. -/
def isSelMoveEvent : LineEditorEvent → Bool
  | .SelectLeft | .SelectRight | .SelectAll | .Left | .Right | .Movement _ => true
  | _ => false

/-- The selection bounds the engine actually maintains: the cursor and the
selection start stay within the buffer, while the selection end can reach
buffer length + 1 (the strict `>` comparison of the SelectRight arm). -/
def SelInv (s : LineEditor) : Prop :=
  s.editor.position ≤ s.editor.buffer.length ∧
  s.selected_start ≤ s.editor.buffer.length ∧
  s.selected_end ≤ s.editor.buffer.length + 1

/-- A styled buffer whose characters are all unstyled. -/
def mkEditor (cs : List Char) (p : Nat) : StyledBuffer :=
  { buffer := cs, position := p, styles := List.replicate cs.length none }

/-- A baseline engine state around a given buffer and selection: surround
disabled, no pluggable collaborators, autocomplete hidden, clipboard healthy
and empty. -/
def mkState (b : StyledBuffer) (selS selE : Nat) : LineEditor :=
  { editor := b
    selected_start := selS
    selected_end := selE
    enable_surround_selection := false
    selection_style := none
    highlighters := []
    hinters := []
    auto_pair := none
    auto_complete_view := { visible := false, elements := [], focus := 0 }
    clip_new_ok := true
    clip_set_ok := true
    clip_get_ok := true
    clipboard := [] }

/-- A highlighter that paints every character with one colour; used to show
that the selection overlay is applied on top of highlighter output. -/
def exHighlighterRed : Highlighter :=
  fun cs _ => List.replicate cs.length (some { bg := some 9 })

/-- The selection-overlay style used by the render example. -/
def exSelStyle : Style := { bg := some 1 }

/-- A hinter that never produces a hint. -/
def exHinterNone : Hinter := fun _ => none

/-- A hinter that always produces the hint "hi". -/
def exHinterHi : Hinter := fun _ => some ['h', 'i']

/-- A concrete state for exercising the render pipeline: buffer "abc" with the
cursor at the end, selection [0,2), a selection style, one highlighter and two
hinters. -/
def exRenderState : LineEditor :=
  { mkState (mkEditor ['a', 'b', 'c'] 3) 0 2 with
    selection_style := some exSelStyle
    highlighters := [exHighlighterRed]
    hinters := [exHinterNone, exHinterHi] }

/-- The state produced by the render phase on `exRenderState`. -/
def exRenderOut : LineEditor := (runRenderPhase exRenderState).1

/-- The hint produced by the render phase on `exRenderState`. -/
def exRenderHint : Option (List Char) := (runRenderPhase exRenderState).2

/-! Helper lemmas. -/

lemma movementFold_inv (cmds : List MovementCommand) (b : StyledBuffer)
    (h : b.position ≤ b.buffer.length) :
    (cmds.foldl run_movement_commands b).position ≤
      (cmds.foldl run_movement_commands b).buffer.length ∧
    (cmds.foldl run_movement_commands b).buffer = b.buffer := by
  induction cmds generalizing b with
  | nil => exact ⟨h, rfl⟩
  | cons c rest ih =>
    have hstep : (run_movement_commands b c).position ≤
        (run_movement_commands b c).buffer.length ∧
        (run_movement_commands b c).buffer = b.buffer := by
      cases c with
      | MoveLeftChar => exact ⟨Nat.le_trans (Nat.sub_le _ _) h, rfl⟩
      | MoveRightChar =>
        by_cases hlt : b.position < b.buffer.length
        · have heq : run_movement_commands b .MoveRightChar =
              { b with position := b.position + 1 } := by
            simp [run_movement_commands, hlt]
          rw [heq]; exact ⟨hlt, rfl⟩
        · have heq : run_movement_commands b .MoveRightChar = b := by
            simp [run_movement_commands, hlt]
          rw [heq]; exact ⟨h, rfl⟩
      | MoveToStart => exact ⟨Nat.zero_le _, rfl⟩
      | MoveToEnd => exact ⟨Nat.le_refl _, rfl⟩
    rw [List.foldl_cons]
    obtain ⟨h1, h2⟩ := ih (run_movement_commands b c) hstep.1
    exact ⟨h1, h2.trans hstep.2⟩

lemma runEditLoop_selection (cmds : List EditCommand) (s : LineEditor) :
    (runEditLoop s cmds).1.selected_start = s.selected_start ∧
    (runEditLoop s cmds).1.selected_end = s.selected_end := by
  induction cmds generalizing s with
  | nil => exact ⟨rfl, rfl⟩
  | cons c rest ih =>
    simp only [runEditLoop]
    split
    · simp [apply_surround_selection]
    · exact ih _

lemma styleRangeFrom_length (lo hi : Nat) (st : Style) :
    ∀ (k : Nat) (l : List (Option Style)), (styleRangeFrom lo hi st k l).length = l.length := by
  intro k l
  induction l generalizing k with
  | nil => rfl
  | cons x xs ih => simp [styleRangeFrom, ih]

lemma styleRangeFrom_getElem (lo hi : Nat) (st : Style) :
    ∀ (l : List (Option Style)) (k i : Nat), i < l.length → lo ≤ k + i → k + i < hi →
      (styleRangeFrom lo hi st k l)[i]? = some (some st) := by
  intro l
  induction l with
  | nil => intro k i hi' _ _; simp at hi'
  | cons x xs ih =>
    intro k i hlen hlo hhi
    cases i with
    | zero =>
      have hcond : lo ≤ k ∧ k < hi := by omega
      simp [styleRangeFrom, hcond]
    | succ j =>
      have := ih (k + 1) j (by simpa using Nat.lt_of_succ_lt_succ hlen) (by omega) (by omega)
      simpa [styleRangeFrom] using this

lemma findSome?_first {α β : Type} (f : α → Option β) :
    ∀ (l : List α) (b : β), l.findSome? f = some b →
      ∃ (i : Nat) (x : α), l[i]? = some x ∧ f x = some b ∧
        ∀ j : Nat, j < i → ∃ y, l[j]? = some y ∧ f y = none := by
  intro l
  induction l with
  | nil => intro b hb; simp [List.findSome?] at hb
  | cons a rest ih =>
    intro b hb
    cases ha : f a with
    | some c =>
      rw [List.findSome?_cons, ha] at hb
      refine ⟨0, a, by simp, ha.trans hb, ?_⟩
      intro j hj
      exact absurd hj (Nat.not_lt_zero j)
    | none =>
      rw [List.findSome?_cons, ha] at hb
      obtain ⟨i, x, h1, h2, h3⟩ := ih b hb
      refine ⟨i + 1, x, by simpa using h1, h2, ?_⟩
      intro j hj
      cases j with
      | zero => exact ⟨a, by simp, ha⟩
      | succ j' => simpa using h3 j' (by omega)

lemma applyHighlighters_frame (hs : List Highlighter) (b : StyledBuffer) :
    (applyHighlighters hs b).buffer = b.buffer ∧
    (applyHighlighters hs b).position = b.position := by
  induction hs generalizing b with
  | nil => exact ⟨rfl, rfl⟩
  | cons h rest ih =>
    simpa [applyHighlighters] using ih { b with styles := h b.buffer b.styles }

lemma apply_visual_selection_frame (s : LineEditor) :
    (apply_visual_selection s).editor.buffer = s.editor.buffer ∧
    (apply_visual_selection s).editor.position = s.editor.position ∧
    (apply_visual_selection s).selected_start = s.selected_start ∧
    (apply_visual_selection s).selected_end = s.selected_end ∧
    (apply_visual_selection s).selection_style = s.selection_style ∧
    (apply_visual_selection s).hinters = s.hinters := by
  unfold apply_visual_selection
  split
  · exact ⟨rfl, rfl, rfl, rfl, rfl, rfl⟩
  · split <;> simp [StyledBuffer.style_range]

/-! The claims. -/

/-- C6.  While the autocomplete overlay is hidden, the Enter event exits with
`Success` of the buffer contents at the time of the event, the buffer is
cleared and the selection reset to start == end. -/
theorem c6_submit_hidden (s : LineEditor) (h : s.auto_complete_view.visible = false) :
    ∃ s', handle_editor_event s .Enter =
        some (.Exits (.Success s.editor.buffer), s') ∧
      s'.editor.buffer = [] ∧ s'.selected_start = s'.selected_end := by
  refine ⟨{ reset_selection_range s with editor := (reset_selection_range s).editor.clear },
    ?_, rfl, rfl⟩
  simp [handle_editor_event, h]

/-- Witness for C6: submitting "abc" with the overlay hidden succeeds with
"abc" and clears the buffer. -/
theorem c6_submit_hidden_witness :
    ∃ s', handle_editor_event (mkState (mkEditor ['a', 'b', 'c'] 3) 3 3) .Enter =
        some (.Exits (.Success ['a', 'b', 'c']), s') ∧
      s'.editor.buffer = [] ∧ s'.selected_start = s'.selected_end :=
  c6_submit_hidden (mkState (mkEditor ['a', 'b', 'c'] 3) 3 3) rfl

/-- C10.  While the overlay is visible but no element is focused, Enter does
not perform a suggestion replacement: it falls through to line submission,
exiting with `Success` of the current buffer contents and clearing the
buffer. -/
theorem c10_submit_visible_unfocused (s : LineEditor)
    (hv : s.auto_complete_view.visible = true)
    (hn : s.auto_complete_view.selected_element = none) :
    ∃ s', handle_editor_event s .Enter =
        some (.Exits (.Success s.editor.buffer), s') ∧
      s'.editor.buffer = [] := by
  refine ⟨{ reset_selection_range s with editor := (reset_selection_range s).editor.clear },
    ?_, rfl⟩
  simp [handle_editor_event, hv, hn]

/-- Witness for C10: a visible overlay with an empty suggestion list submits
the line. -/
theorem c10_submit_visible_unfocused_witness :
    ∃ s', handle_editor_event
        { mkState (mkEditor ['a', 'b'] 2) 2 2 with
          auto_complete_view := { visible := true, elements := [], focus := 0 } } .Enter =
        some (.Exits (.Success ['a', 'b']), s') ∧
      s'.editor.buffer = [] :=
  c10_submit_visible_unfocused _ rfl rfl

/-- C8.  Copy on a non-empty selection pushes the normalized substring to the
clipboard and changes nothing else: the successor state is exactly the input
state with only the clipboard replaced. -/
theorem c8_copy_frame (s : LineEditor) (hsel : s.selected_start ≠ s.selected_end)
    (hhi : max s.selected_start s.selected_end ≤ s.editor.buffer.length)
    (hnew : s.clip_new_ok = true) (hset : s.clip_set_ok = true) :
    ∃ t, s.editor.sub_string (min s.selected_start s.selected_end)
        (max s.selected_start s.selected_end) = some t ∧
      handle_editor_event s .CopySelected =
        some (.GeneralHandled, { s with clipboard := t }) := by
  have hle : min s.selected_start s.selected_end ≤ max s.selected_start s.selected_end :=
    min_le_max
  refine ⟨(s.editor.buffer.drop (min s.selected_start s.selected_end)).take
      (max s.selected_start s.selected_end - min s.selected_start s.selected_end), ?_, ?_⟩
  · simp [StyledBuffer.sub_string, hle, hhi]
  · simp [handle_editor_event, hsel, StyledBuffer.sub_string, hle, hhi, hnew, hset]

/-- Witness for C8: copying the selection [1,3) of "abcd" puts "bc" on the
clipboard and leaves the rest of the state as it was. -/
theorem c8_copy_frame_witness :
    ∃ t, (mkState (mkEditor ['a', 'b', 'c', 'd'] 1) 1 3).editor.sub_string 1 3 = some t ∧
      handle_editor_event (mkState (mkEditor ['a', 'b', 'c', 'd'] 1) 1 3) .CopySelected =
        some (.GeneralHandled, { mkState (mkEditor ['a', 'b', 'c', 'd'] 1) 1 3 with clipboard := t }) :=
  c8_copy_frame (mkState (mkEditor ['a', 'b', 'c', 'd'] 1) 1 3) (by decide) (by decide) rfl rfl

/-- C2.  Cut on a non-empty selection with normalized endpoints (lo,hi) inside
the buffer: the buffer shrinks by hi - lo, the cursor lands on lo, the
clipboard receives the original substring, and the selection collapses to
start == end. -/
theorem c2_cut_postcondition (s : LineEditor) (hsel : s.selected_start ≠ s.selected_end)
    (hhi : max s.selected_start s.selected_end ≤ s.editor.buffer.length)
    (hnew : s.clip_new_ok = true) (hset : s.clip_set_ok = true) :
    ∃ s', handle_editor_event s .CutSelected = some (.GeneralHandled, s') ∧
      s'.editor.buffer.length +
          (max s.selected_start s.selected_end - min s.selected_start s.selected_end) =
        s.editor.buffer.length ∧
      s'.editor.position = min s.selected_start s.selected_end ∧
      s.editor.sub_string (min s.selected_start s.selected_end)
          (max s.selected_start s.selected_end) = some s'.clipboard ∧
      s'.selected_start = s'.selected_end := by
  have hle : min s.selected_start s.selected_end ≤ max s.selected_start s.selected_end :=
    min_le_max
  refine ⟨reset_selection_range
      { s with
        clipboard := (s.editor.buffer.drop (min s.selected_start s.selected_end)).take
          (max s.selected_start s.selected_end - min s.selected_start s.selected_end)
        editor := s.editor.delete_range (min s.selected_start s.selected_end)
          (max s.selected_start s.selected_end) }, ?_, ?_, ?_, ?_, rfl⟩
  · simp [handle_editor_event, hsel, StyledBuffer.sub_string, hle, hhi, hnew, hset]
  · simp only [reset_selection_range, StyledBuffer.delete_range, List.length_append,
      List.length_take, List.length_drop]
    omega
  · simp [reset_selection_range, StyledBuffer.delete_range]
  · simp [reset_selection_range, StyledBuffer.sub_string, hle, hhi]

/-- Witness for C2: cutting the selection [1,3) of "abcd" leaves "ad", cursor
1, clipboard "bc", and an empty selection. -/
theorem c2_cut_postcondition_witness :
    ∃ s', handle_editor_event (mkState (mkEditor ['a', 'b', 'c', 'd'] 1) 1 3) .CutSelected =
        some (.GeneralHandled, s') ∧
      s'.editor.buffer.length + (max 1 3 - min 1 3) =
        (mkState (mkEditor ['a', 'b', 'c', 'd'] 1) 1 3).editor.buffer.length ∧
      s'.editor.position = min 1 3 ∧
      (mkState (mkEditor ['a', 'b', 'c', 'd'] 1) 1 3).editor.sub_string (min 1 3) (max 1 3) =
        some s'.clipboard ∧
      s'.selected_start = s'.selected_end :=
  c2_cut_postcondition (mkState (mkEditor ['a', 'b', 'c', 'd'] 1) 1 3)
    (by decide) (by decide) rfl rfl

/-- C5 counterexample: on a perfectly applicable cut (non-empty selection,
substring available), a failure of `ClipboardProvider::new()` — which the code
unwraps — panics and aborts the session instead of being swallowed. -/
theorem c5_counterexample :
    { mkState (mkEditor ['a', 'b', 'c', 'd'] 1) 1 3 with clip_new_ok := false }.selected_start ≠
      { mkState (mkEditor ['a', 'b', 'c', 'd'] 1) 1 3 with clip_new_ok := false }.selected_end ∧
    handle_editor_event
      { mkState (mkEditor ['a', 'b', 'c', 'd'] 1) 1 3 with clip_new_ok := false }
      .CutSelected = none :=
  ⟨by decide, rfl⟩

/-- C5 as amended.  Failures of the clipboard get/set operations are swallowed:
cut with a failing `set_contents` still performs its buffer effect and leaves
the clipboard unchanged; copy with a failing `set_contents` reports handled
with no state change at all; paste with a failing `get_contents` is
inapplicable with no state change.  A failure of `ClipboardProvider::new()`
itself, however, panics (aborting the session) for cut, copy and paste alike. -/
theorem c5_clipboard_amended :
    (∀ s : LineEditor, s.selected_start ≠ s.selected_end →
        max s.selected_start s.selected_end ≤ s.editor.buffer.length →
        s.clip_new_ok = true → s.clip_set_ok = false →
        ∃ s', handle_editor_event s .CutSelected = some (.GeneralHandled, s') ∧
          s'.clipboard = s.clipboard ∧
          s'.editor.buffer.length +
              (max s.selected_start s.selected_end - min s.selected_start s.selected_end) =
            s.editor.buffer.length) ∧
    (∀ s : LineEditor, s.selected_start ≠ s.selected_end →
        max s.selected_start s.selected_end ≤ s.editor.buffer.length →
        s.clip_new_ok = true → s.clip_set_ok = false →
        handle_editor_event s .CopySelected = some (.GeneralHandled, s)) ∧
    (∀ s : LineEditor, s.clip_new_ok = true → s.clip_get_ok = false →
        handle_editor_event s .Paste = some (.Inapplicable, s)) ∧
    (∀ s : LineEditor, s.selected_start ≠ s.selected_end →
        max s.selected_start s.selected_end ≤ s.editor.buffer.length →
        s.clip_new_ok = false → handle_editor_event s .CutSelected = none) ∧
    (∀ s : LineEditor, s.clip_new_ok = false → handle_editor_event s .Paste = none) ∧
    (∀ s : LineEditor, s.selected_start ≠ s.selected_end →
        max s.selected_start s.selected_end ≤ s.editor.buffer.length →
        s.clip_new_ok = false → handle_editor_event s .CopySelected = none) := by
  refine ⟨?_, ?_, ?_, ?_, ?_, ?_⟩
  · intro s hsel hhi hnew hset
    have hle : min s.selected_start s.selected_end ≤ max s.selected_start s.selected_end :=
      min_le_max
    refine ⟨reset_selection_range
        { s with
          editor := s.editor.delete_range (min s.selected_start s.selected_end)
            (max s.selected_start s.selected_end) }, ?_, rfl, ?_⟩
    · simp [handle_editor_event, hsel, StyledBuffer.sub_string, hle, hhi, hnew, hset]
    · simp only [reset_selection_range, StyledBuffer.delete_range, List.length_append,
        List.length_take, List.length_drop]
      omega
  · intro s hsel hhi hnew hset
    have hle : min s.selected_start s.selected_end ≤ max s.selected_start s.selected_end :=
      min_le_max
    simp [handle_editor_event, hsel, StyledBuffer.sub_string, hle, hhi, hnew, hset]
    rw [← hnew, ← hset]
  · intro s hnew hget
    simp [handle_editor_event, hnew, hget]
  · intro s hsel hhi hnew
    have hle : min s.selected_start s.selected_end ≤ max s.selected_start s.selected_end :=
      min_le_max
    simp [handle_editor_event, hsel, StyledBuffer.sub_string, hle, hhi, hnew]
  · intro s hnew
    simp [handle_editor_event, hnew]
  · intro s hsel hhi hnew
    have hle : min s.selected_start s.selected_end ≤ max s.selected_start s.selected_end :=
      min_le_max
    simp [handle_editor_event, hsel, StyledBuffer.sub_string, hle, hhi, hnew]

/-- Witness for the amended C5: paste with a failing `get_contents` is
inapplicable and leaves the state untouched. -/
theorem c5_clipboard_amended_witness :
    handle_editor_event { mkState (mkEditor ['a'] 0) 0 1 with clip_get_ok := false } .Paste =
      some (.Inapplicable, { mkState (mkEditor ['a'] 0) 0 1 with clip_get_ok := false }) :=
  c5_clipboard_amended.2.2.1 { mkState (mkEditor ['a'] 0) 0 1 with clip_get_ok := false } rfl rfl

lemma selmove_step (s : LineEditor) (e : LineEditorEvent)
    (he : isSelMoveEvent e = true) (h : SelInv s) : SelInv (stepState s e) := by
  obtain ⟨hp, hs, hend⟩ := h
  cases e <;> simp [isSelMoveEvent] at he
  case Movement cmds =>
    obtain ⟨hpos, -⟩ := movementFold_inv cmds s.editor hp
    refine ⟨?_, ?_, ?_⟩ <;>
      simp only [stepState, handle_editor_event, reset_selection_range, runMovementLoop] <;>
      omega
  case Left =>
    refine ⟨?_, ?_, ?_⟩ <;>
      simp only [stepState, handle_editor_event, reset_selection_range,
        run_movement_commands] <;>
      omega
  case Right =>
    by_cases hlt : s.editor.position < s.editor.buffer.length <;>
      refine ⟨?_, ?_, ?_⟩ <;>
      simp [stepState, handle_editor_event, reset_selection_range,
        run_movement_commands, hlt] <;>
      omega
  case SelectLeft =>
    by_cases hz : s.selected_end < 1 <;>
      refine ⟨?_, ?_, ?_⟩ <;>
      simp [stepState, handle_editor_event, hz] <;>
      omega
  case SelectRight =>
    by_cases hgt : s.selected_end > s.editor.buffer.length <;>
      refine ⟨?_, ?_, ?_⟩ <;>
      simp [stepState, handle_editor_event, hgt] <;>
      omega
  case SelectAll =>
    refine ⟨?_, ?_, ?_⟩ <;>
      (simp [stepState, handle_editor_event]; try omega)

/-- C1 counterexample: on the one-character buffer "a" with selection end
already equal to the buffer length, SelectRight is not reported inapplicable —
it is handled and moves the selection end to 2, one past the buffer length
(the code compares with `>` rather than `>=`). -/
theorem c1_counterexample :
    (mkState (mkEditor ['a'] 0) 0 1).selected_end =
      (mkState (mkEditor ['a'] 0) 0 1).editor.buffer.length ∧
    handle_editor_event (mkState (mkEditor ['a'] 0) 0 1) .SelectRight =
      some (.SelectionHandled, { mkState (mkEditor ['a'] 0) 0 1 with selected_end := 2 }) ∧
    handle_editor_event (mkState (mkEditor ['a'] 0) 0 1) .SelectRight ≠
      some (.Inapplicable, mkState (mkEditor ['a'] 0) 0 1) := by
  refine ⟨rfl, rfl, ?_⟩
  intro h
  exact EventStatus.noConfusion (congrArg Prod.fst (Option.some.inj h))

/-- C1 as amended.  Extend-left at end == 0 is a no-op reported inapplicable;
extend-right is a no-op reported inapplicable only when end already exceeds
the buffer length, while at end == length it still increments (to length + 1).
Consequently, over any sequence of selection-extension and movement events the
engine maintains 0 ≤ start ≤ buffer length and 0 ≤ end ≤ buffer length + 1
(not end ≤ buffer length, as the claim stated). -/
theorem c1_selection_bounds_amended :
    (∀ s : LineEditor, s.selected_end = 0 →
        handle_editor_event s .SelectLeft = some (.Inapplicable, s)) ∧
    (∀ s : LineEditor, s.editor.buffer.length < s.selected_end →
        handle_editor_event s .SelectRight = some (.Inapplicable, s)) ∧
    (∀ s : LineEditor, s.selected_end ≤ s.editor.buffer.length →
        handle_editor_event s .SelectRight =
          some (.SelectionHandled, { s with selected_end := s.selected_end + 1 })) ∧
    (∀ (s : LineEditor) (events : List LineEditorEvent),
        (∀ e ∈ events, isSelMoveEvent e = true) → SelInv s →
        SelInv (events.foldl stepState s)) := by
  refine ⟨?_, ?_, ?_, ?_⟩
  · intro s h
    simp [handle_editor_event, h]
  · intro s h
    simp [handle_editor_event, h]
  · intro s h
    simp [handle_editor_event, Nat.not_lt.mpr h]
  · intro s events
    induction events generalizing s with
    | nil => intro _ hI; exact hI
    | cons e rest ih =>
      intro hall hI
      rw [List.foldl_cons]
      exact ih _ (fun e' he' => hall e' (List.mem_cons_of_mem _ he'))
        (selmove_step s e (hall e (List.mem_cons_self _ _)) hI)

/-- Witness for the amended C1: starting from buffer "ab" with an empty
selection at the cursor, the bounds hold after a concrete mixed sequence of
extension and movement events. -/
theorem c1_selection_bounds_amended_witness :
    SelInv (List.foldl stepState (mkState (mkEditor ['a', 'b'] 0) 0 0)
      [.SelectRight, .SelectRight, .SelectRight, .Left, .SelectLeft, .Right, .SelectAll]) :=
  c1_selection_bounds_amended.2.2.2 (mkState (mkEditor ['a', 'b'] 0) 0 0)
    [.SelectRight, .SelectRight, .SelectRight, .Left, .SelectLeft, .Right, .SelectAll]
    (by decide) ⟨by decide, by decide, by decide⟩

/-- C3 counterexample: Backspace with no active selection does not re-anchor
the selection endpoints to the new cursor position.  On buffer "ab" with
cursor 2 and selection (2,2), Backspace leaves the buffer "a" with cursor 1,
but the selection endpoints stay at 2 — start == end == 2 ≠ 1 == cursor. -/
theorem c3_counterexample :
    handle_editor_event (mkState (mkEditor ['a', 'b'] 2) 2 2) .Backspace =
      some (.EditHandled, mkState (mkEditor ['a'] 1) 2 2) ∧
    (mkState (mkEditor ['a'] 1) 2 2).selected_start = 2 ∧
    (mkState (mkEditor ['a'] 1) 2 2).editor.position = 1 ∧
    (mkState (mkEditor ['a'] 1) 2 2).selected_start ≠
      (mkState (mkEditor ['a'] 1) 2 2).editor.position :=
  ⟨rfl, rfl, rfl, by decide⟩

/-- C3 as amended.  An `Edit` event whose command loop completes without
triggering surround resets start == end == new cursor position; Delete and
Backspace on an active selection reset likewise (inside
`delete_selected_text`), and cut resets start == end == cursor as part of the
operation; but Delete and Backspace with no active selection leave the
selection endpoints exactly as they were (so after Backspace they differ from
the new cursor), and a surround-insert leaves the selection endpoints
unchanged rather than resetting them. -/
theorem c3_selection_reset_amended (s : LineEditor) :
    (∀ (cmds : List EditCommand) (s' : LineEditor), runEditLoop s cmds = (s', false) →
        ∃ s'', handle_editor_event s (.Edit cmds) = some (.EditHandled, s'') ∧
          s''.selected_start = s''.editor.position ∧
          s''.selected_end = s''.editor.position) ∧
    (∀ (cmds : List EditCommand) (s' : LineEditor), runEditLoop s cmds = (s', true) →
        handle_editor_event s (.Edit cmds) = some (.EditHandled, s') ∧
        s'.selected_start = s.selected_start ∧ s'.selected_end = s.selected_end) ∧
    (s.selected_start = s.selected_end →
        ∃ s'', handle_editor_event s .Backspace = some (.EditHandled, s'') ∧
          s''.selected_start = s.selected_start ∧ s''.selected_end = s.selected_end) ∧
    (s.selected_start = s.selected_end →
        ∃ s'', handle_editor_event s .Delete = some (.EditHandled, s'') ∧
          s''.selected_start = s.selected_start ∧ s''.selected_end = s.selected_end) ∧
    (s.selected_start ≠ s.selected_end →
        ∃ s'', handle_editor_event s .Delete = some (.EditHandled, s'') ∧
          s''.selected_start = s''.editor.position ∧
          s''.selected_end = s''.editor.position) ∧
    (s.selected_start ≠ s.selected_end →
        ∃ s'', handle_editor_event s .Backspace = some (.EditHandled, s'') ∧
          s''.selected_start = s''.editor.position ∧
          s''.selected_end = s''.editor.position) ∧
    (s.selected_start ≠ s.selected_end →
        max s.selected_start s.selected_end ≤ s.editor.buffer.length →
        s.clip_new_ok = true →
        ∃ s'', handle_editor_event s .CutSelected = some (.GeneralHandled, s'') ∧
          s''.selected_start = s''.editor.position ∧
          s''.selected_end = s''.editor.position) := by
  refine ⟨?_, ?_, ?_, ?_, ?_, ?_, ?_⟩
  · intro cmds s' hloop
    refine ⟨reset_selection_range s', ?_, rfl, rfl⟩
    simp [handle_editor_event, hloop]
  · intro cmds s' hloop
    have hsel := runEditLoop_selection cmds s
    rw [hloop] at hsel
    exact ⟨by simp [handle_editor_event, hloop], hsel.1, hsel.2⟩
  · intro heq
    refine ⟨{ s with editor := run_edit_commands s.editor .DeleteLeftChar }, ?_, rfl, rfl⟩
    simp [handle_editor_event, heq]
  · intro heq
    refine ⟨{ s with editor := run_edit_commands s.editor .DeleteRightChar }, ?_, rfl, rfl⟩
    simp [handle_editor_event, heq]
  · intro hne
    refine ⟨delete_selected_text s, ?_, ?_, ?_⟩
    · simp [handle_editor_event, hne]
    · simp [delete_selected_text, hne, reset_selection_range]
    · simp [delete_selected_text, hne, reset_selection_range]
  · intro hne
    refine ⟨delete_selected_text s, ?_, ?_, ?_⟩
    · simp [handle_editor_event, hne]
    · simp [delete_selected_text, hne, reset_selection_range]
    · simp [delete_selected_text, hne, reset_selection_range]
  · intro hne hhi hnew
    have hle : min s.selected_start s.selected_end ≤ max s.selected_start s.selected_end :=
      min_le_max
    refine ⟨reset_selection_range
        { s with
          clipboard := if s.clip_set_ok then
              (s.editor.buffer.drop (min s.selected_start s.selected_end)).take
                (max s.selected_start s.selected_end - min s.selected_start s.selected_end)
            else s.clipboard
          editor := s.editor.delete_range (min s.selected_start s.selected_end)
            (max s.selected_start s.selected_end) }, ?_, rfl, rfl⟩
    simp [handle_editor_event, hne, StyledBuffer.sub_string, hle, hhi, hnew]

/-- Witness for the amended C3: the Backspace clause applied to the
no-selection state on "ab" with cursor 2. -/
theorem c3_selection_reset_amended_witness :
    ∃ s'', handle_editor_event (mkState (mkEditor ['a', 'b'] 2) 2 2) .Backspace =
        some (.EditHandled, s'') ∧
      s''.selected_start = (mkState (mkEditor ['a', 'b'] 2) 2 2).selected_start ∧
      s''.selected_end = (mkState (mkEditor ['a', 'b'] 2) 2 2).selected_end :=
  (c3_selection_reset_amended (mkState (mkEditor ['a', 'b'] 2) 2 2)).2.2.1 rfl

/-- C4.  With surround selection enabled and an active selection normalized to
(2,5) inside the buffer, inserting the open pairing character of the
parenthesis pair grows the buffer by exactly 2, puts the open character at
offset 2 and the close character at offset 6, parks the cursor at offset 2,
and pre-empts plain insertion entirely: the handler state is exactly the
surround result (selection endpoints included). -/
theorem c4_surround_insert (s : LineEditor)
    (hen : s.enable_surround_selection = true)
    (hlo : min s.selected_start s.selected_end = 2)
    (hhi : max s.selected_start s.selected_end = 5)
    (hlen : 5 ≤ s.editor.buffer.length) :
    handle_editor_event s (.Edit [.InsertChar '(']) =
      some (.EditHandled, apply_surround_selection s '(' ')') ∧
    (apply_surround_selection s '(' ')').editor.buffer.length =
      s.editor.buffer.length + 2 ∧
    (apply_surround_selection s '(' ')').editor.buffer[2]? = some '(' ∧
    (apply_surround_selection s '(' ')').editor.buffer[6]? = some ')' ∧
    (apply_surround_selection s '(' ')').editor.position = 2 := by
  have hne : s.selected_start ≠ s.selected_end := by
    intro h
    rw [h] at hlo hhi
    simp at hlo hhi
    omega
  have hfind : DEFAULT_PAIRS.find? (fun p => p.1 == '(') = some ('(', ')') := rfl
  have hloop : runEditLoop s [.InsertChar '('] = (apply_surround_selection s '(' ')', true) := by
    simp [runEditLoop, hen, hne, hfind]
  have happ : apply_surround_selection s '(' ')' =
      { s with editor :=
          ((((s.editor.set_position 2).insert_char '(').set_position 6).insert_char
            ')').set_position 2 } := by
    simp [apply_surround_selection, hlo, hhi]
  have hbuf : (apply_surround_selection s '(' ')').editor.buffer =
      (s.editor.buffer.take 2 ++ '(' :: s.editor.buffer.drop 2).take 6 ++
        ')' :: (s.editor.buffer.take 2 ++ '(' :: s.editor.buffer.drop 2).drop 6 := by
    rw [happ]
    simp [StyledBuffer.set_position, StyledBuffer.insert_char]
  have ht2 : (s.editor.buffer.take 2).length = 2 := by
    rw [List.length_take]
    omega
  have hB1 : (s.editor.buffer.take 2 ++ '(' :: s.editor.buffer.drop 2).length =
      s.editor.buffer.length + 1 := by
    simp
    omega
  have htake6 : ((s.editor.buffer.take 2 ++ '(' :: s.editor.buffer.drop 2).take 6).length = 6 := by
    rw [List.length_take, hB1]
    omega
  refine ⟨?_, ?_, ?_, ?_, ?_⟩
  · simp [handle_editor_event, hloop]
  · rw [hbuf]
    simp only [List.length_append, List.length_cons, List.length_drop, htake6, hB1]
    omega
  · have hc1 : (2 : Nat) <
        ((s.editor.buffer.take 2 ++ '(' :: s.editor.buffer.drop 2).take 6).length := by
      omega
    have hc3 : ¬ ((2 : Nat) < (s.editor.buffer.take 2).length) := by
      omega
    rw [hbuf, List.getElem?_append, if_pos hc1, List.getElem?_take,
      if_pos (by omega : (2 : Nat) < 6), List.getElem?_append, if_neg hc3, ht2]
    simp
  · have hc1 : ¬ ((6 : Nat) <
        ((s.editor.buffer.take 2 ++ '(' :: s.editor.buffer.drop 2).take 6).length) := by
      omega
    rw [hbuf, List.getElem?_append, if_neg hc1, htake6]
    simp
  · rw [happ]
    simp [StyledBuffer.set_position, StyledBuffer.insert_char]

/-- Witness for C4: surrounding the selection [2,5) of "abcdefg" with
parentheses yields '(' at offset 2 and ')' at offset 6, buffer length 9 and
cursor 2. -/
theorem c4_surround_insert_witness :
    (apply_surround_selection
        { mkState (mkEditor ['a', 'b', 'c', 'd', 'e', 'f', 'g'] 0) 2 5 with
          enable_surround_selection := true } '(' ')').editor.buffer[2]? = some '(' ∧
    (apply_surround_selection
        { mkState (mkEditor ['a', 'b', 'c', 'd', 'e', 'f', 'g'] 0) 2 5 with
          enable_surround_selection := true } '(' ')').editor.buffer[6]? = some ')' ∧
    (apply_surround_selection
        { mkState (mkEditor ['a', 'b', 'c', 'd', 'e', 'f', 'g'] 0) 2 5 with
          enable_surround_selection := true } '(' ')').editor.buffer.length = 7 + 2 ∧
    (apply_surround_selection
        { mkState (mkEditor ['a', 'b', 'c', 'd', 'e', 'f', 'g'] 0) 2 5 with
          enable_surround_selection := true } '(' ')').editor.position = 2 :=
  have H := c4_surround_insert
    { mkState (mkEditor ['a', 'b', 'c', 'd', 'e', 'f', 'g'] 0) 2 5 with
      enable_surround_selection := true } rfl (by decide) (by decide) (by decide)
  ⟨H.2.2.1, H.2.2.2.1, H.2.1, H.2.2.2.2⟩

/-- C7.  Enter while the overlay is visible and an element is focused replaces
the suggestion's source span with its literal text, leaves the cursor after
the inserted literal, hides the overlay, and does not terminate the session
(the status is `SelectionHandled`, not `Exits`). -/
theorem c7_accept_suggestion (s : LineEditor) (sg : Suggestion)
    (hv : s.auto_complete_view.visible = true)
    (hfocus : s.auto_complete_view.selected_element = some sg)
    (hspan : sg.span_start ≤ sg.span_end)
    (hlen : sg.span_end ≤ s.editor.buffer.length) :
    ∃ s', handle_editor_event s .Enter = some (.SelectionHandled, s') ∧
      s'.editor.buffer =
        s.editor.buffer.take sg.span_start ++ sg.literal ++
          s.editor.buffer.drop sg.span_end ∧
      s'.editor.position = sg.span_start + sg.literal.length ∧
      s'.auto_complete_view.visible = false := by
  have hstart : sg.span_start ≤ s.editor.buffer.length := hspan.trans hlen
  have ht : (s.editor.buffer.take sg.span_start).length = sg.span_start := by
    rw [List.length_take]
    omega
  refine ⟨{ s with
      editor := run_edit_commands
        (run_edit_commands s.editor (.DeleteSpan sg.span_start sg.span_end))
        (.InsertString sg.literal)
      auto_complete_view := { s.auto_complete_view with visible := false } }, ?_, ?_, ?_, rfl⟩
  · simp [handle_editor_event, hv, hfocus]
  · simp only [run_edit_commands, StyledBuffer.delete_range, StyledBuffer.insert_string]
    rw [List.take_left' ht, List.drop_left' ht, List.append_assoc]
  · simp [run_edit_commands, StyledBuffer.delete_range, StyledBuffer.insert_string]

/-- Witness for C7: accepting the focused suggestion "xyz" over the span [1,3)
of "abcd" gives "axyzd", cursor 4, overlay hidden. -/
theorem c7_accept_suggestion_witness :
    ∃ s', handle_editor_event
        { mkState (mkEditor ['a', 'b', 'c', 'd'] 3) 3 3 with
          auto_complete_view :=
            { visible := true
              elements := [{ literal := ['x', 'y', 'z'], span_start := 1, span_end := 3 }]
              focus := 0 } } .Enter = some (.SelectionHandled, s') ∧
      s'.editor.buffer = ['a'].append (['x', 'y', 'z'] ++ ['d']) ∧
      s'.editor.position = 1 + 3 ∧
      s'.auto_complete_view.visible = false :=
  c7_accept_suggestion
    { mkState (mkEditor ['a', 'b', 'c', 'd'] 3) 3 3 with
      auto_complete_view :=
        { visible := true
          elements := [{ literal := ['x', 'y', 'z'], span_start := 1, span_end := 3 }]
          focus := 0 } }
    { literal := ['x', 'y', 'z'], span_start := 1, span_end := 3 }
    rfl rfl (by decide) (by decide)

lemma apply_visual_selection_overlay (u : LineEditor) (st : Style)
    (hne : (apply_visual_selection u).selected_start ≠ (apply_visual_selection u).selected_end)
    (hsty : (apply_visual_selection u).selection_style = some st) :
    ∀ i : Nat,
      min (apply_visual_selection u).selected_start
        (apply_visual_selection u).selected_end ≤ i →
      i < max (apply_visual_selection u).selected_start
        (apply_visual_selection u).selected_end →
      i < (apply_visual_selection u).editor.styles.length →
      (apply_visual_selection u).editor.styles[i]? = some (some st) := by
  obtain ⟨-, -, hs1, hs2, hst, -⟩ := apply_visual_selection_frame u
  rw [hs1, hs2] at hne ⊢
  rw [hst] at hsty
  intro i h1 h2 h3
  have hres : apply_visual_selection u =
      { u with
        editor := u.editor.style_range (min u.selected_start u.selected_end)
          (max u.selected_start u.selected_end) st } := by
    simp [apply_visual_selection, hne, hsty]
  rw [hres] at h3 ⊢
  simp only [StyledBuffer.style_range] at h3 ⊢
  have h3' : i < u.editor.styles.length := by
    rw [styleRangeFrom_length] at h3
    exact h3
  exact styleRangeFrom_getElem _ _ st u.editor.styles 0 i h3' (by omega) (by omega)

/-- C9.  For any iteration that reaches the render phase: (a) the rendered
state and hint are computed from the post-edit (and post-auto-pair) state —
styles reset, every registered highlighter applied in registration order over
the full buffer, then the selection overlay, then the hint; (b) the selection
overlay wins over every highlighter on the selected range; (c) a hint is
rendered only when the cursor sits at the end of the buffer; (d) the rendered
hint is the first non-empty hint in registration order. -/
theorem c9_render_ordering (s : LineEditor) (events : List LineEditorEvent)
    (s3 : LineEditor) (hint : Option (List Char))
    (h : runIteration s events = .rendered s3 hint) :
    (∃ s1, applyEvents s events = .finished s1 ∧
      s3 = apply_visual_selection
        { autoPairStep s s1 with
          editor := applyHighlighters (autoPairStep s s1).highlighters
            (autoPairStep s s1).editor.reset_styles } ∧
      hint = (if s3.editor.position = s3.editor.buffer.length
              then firstHint s3.hinters s3.editor else none)) ∧
    (∀ st : Style, s3.selection_style = some st → s3.selected_start ≠ s3.selected_end →
      ∀ i : Nat, min s3.selected_start s3.selected_end ≤ i →
        i < max s3.selected_start s3.selected_end → i < s3.editor.styles.length →
        s3.editor.styles[i]? = some (some st)) ∧
    (hint.isSome = true → s3.editor.position = s3.editor.buffer.length) ∧
    (∀ t : List Char, hint = some t →
      ∃ (i : Nat) (hr : Hinter), s3.hinters[i]? = some hr ∧ hr s3.editor = some t ∧
        ∀ j : Nat, j < i → ∃ g : Hinter, s3.hinters[j]? = some g ∧ g s3.editor = none) := by
  unfold runIteration at h
  cases happ : applyEvents s events <;> rw [happ] at h
  case panicked => exact absurd h (by simp)
  case aborted s' => exact absurd h (by simp)
  case exited r s' => exact absurd h (by simp)
  case finished s1 =>
    have h' : IterResult.rendered (runRenderPhase (autoPairStep s s1)).1
        (runRenderPhase (autoPairStep s s1)).2 = .rendered s3 hint := h
    injection h' with h1 h2
    have hs3 : s3 = apply_visual_selection
        { autoPairStep s s1 with
          editor := applyHighlighters (autoPairStep s s1).highlighters
            (autoPairStep s s1).editor.reset_styles } := by
      rw [← h1]
      rfl
    have hhint : hint = (if s3.editor.position = s3.editor.buffer.length
        then firstHint s3.hinters s3.editor else none) := by
      rw [← h2, ← h1]
      rfl
    refine ⟨⟨s1, rfl, hs3, hhint⟩, ?_, ?_, ?_⟩
    · intro st hsty hne i hmin hmax hilen
      rw [hs3] at hsty hne hmin hmax hilen ⊢
      exact apply_visual_selection_overlay _ st hne hsty i hmin hmax hilen
    · intro hsome
      by_contra hcond
      rw [hhint, if_neg hcond] at hsome
      simp at hsome
    · intro t ht
      rw [hhint] at ht
      by_cases hcond : s3.editor.position = s3.editor.buffer.length
      · rw [if_pos hcond] at ht
        unfold firstHint at ht
        exact findSome?_first (fun hr => hr s3.editor) s3.hinters t ht
      · rw [if_neg hcond] at ht
        exact absurd ht (by simp)

/-- Witness for C9: in the concrete render state, index 0 of the selected
range carries the selection style even though the registered highlighter
painted everything differently; the hint fires with the cursor at the end of
the buffer and comes from the first hinter that produced one. -/
theorem c9_render_ordering_witness :
    exRenderOut.editor.styles[0]? = some (some exSelStyle) ∧
    exRenderOut.editor.position = exRenderOut.editor.buffer.length ∧
    (∃ (i : Nat) (hr : Hinter), exRenderOut.hinters[i]? = some hr ∧
      hr exRenderOut.editor = some ['h', 'i'] ∧
      ∀ j : Nat, j < i → ∃ g : Hinter, exRenderOut.hinters[j]? = some g ∧
        g exRenderOut.editor = none) :=
  have hr : runIteration exRenderState [] = .rendered exRenderOut exRenderHint := rfl
  have H := c9_render_ordering exRenderState [] exRenderOut exRenderHint hr
  ⟨H.2.1 exSelStyle rfl (by decide) 0 (by decide) (by decide) (by decide),
   H.2.2.1 (by decide),
   H.2.2.2 ['h', 'i'] rfl⟩
